import Mathlib

/-!
# Verification development for React_HTML_Link_Scraper

Shallow embedding of the link-extraction and base-URL-detection logic of the
repository (src/src/index.tsx, src/scraper.tsx and the unnamed variants), with
theorems settling the specification claims.

The browser-supplied facilities (`new URL`, `DOMParser`, the clipboard) are
external collaborators; `new URL(href, base).href` is modelled below by
`newURL`, a computable fragment of the WHATWG URL algorithm.  The modelled
fragment: the special schemes http, https, ws, wss, ftp and file with their
default-port and slash handling, the same-scheme relative quirk, credentials,
ports (rejected at 2^16), tab/newline stripping and C0/space trimming of
inputs, dot-segment normalization, backslash authorities, and opaque-path
URLs for other schemes.  Out of the fragment (declared approximations):
percent-encoding of userinfo/path/query/fragment characters, hosts containing
`%`, IDNA/punycode and non-ASCII host mapping, IPv4/IPv6 host forms, and
Windows-drive edge cases of file URLs beyond basic drive-letter paths.
`DOMParser` output is modelled as the list of anchor elements' `href`
attributes (`Option String`, `none` for a missing attribute), and the
clipboard as the optional payload a handler emits.
-/

namespace LinkScraper

/-! ## Model of the WHATWG `new URL(href, base).href` environment facility -/

/-- Lowercasing of ASCII letters, as applied by the URL parser to schemes and hosts. -/
def lowerStr (s : String) : String := String.mk (s.toList.map Char.toLower)

/-- The basic URL parser's input preprocessing: remove leading and trailing
C0 controls and spaces, then remove all ASCII tab, LF and CR. -/
def cleanseUrlInput (s : String) : String :=
  let cs := s.toList
  let cs := cs.dropWhile (fun c => c.toNat ≤ 32)
  let cs := (cs.reverse.dropWhile (fun c => c.toNat ≤ 32)).reverse
  String.mk (cs.filter (fun c => !(c = '\t' || c = '\n' || c = '\r')))

/-- Characters allowed in a URL scheme after the first letter. -/
def isSchemeChar (c : Char) : Bool := c.isAlphanum || c = '+' || c = '-' || c = '.'

/-- Split a leading `scheme:` off a URL string; returns the lowercased scheme and
the remaining characters, or `none` when the string has no scheme. -/
def splitScheme (cs : List Char) : Option (String × List Char) :=
  match cs with
  | [] => none
  | c :: _ =>
    if c.isAlpha then
      let sch := cs.takeWhile isSchemeChar
      match cs.drop sch.length with
      | ':' :: rest => some (lowerStr (String.mk sch), rest)
      | _ => none
    else none

/-- The special schemes of the URL Standard. -/
def isSpecialScheme (s : String) : Bool :=
  s = "http" || s = "https" || s = "ws" || s = "wss" || s = "ftp" || s = "file"

/-- A scheme's default port, which the parser omits from the record. -/
def isDefaultPort (sch : String) (n : Nat) : Bool :=
  (sch = "http" && n = 80) || (sch = "https" && n = 443) ||
  (sch = "ws" && n = 80) || (sch = "wss" && n = 443) || (sch = "ftp" && n = 21)

/-- Special schemes treat `/` and `\` alike as slashes. -/
def isSlashChar (c : Char) : Bool := c = '/' || c = '\\'

/-- The forbidden host code points (with `%` also rejected: percent-encoded
hosts are outside the modelled fragment). -/
def isForbiddenHostChar (c : Char) : Bool :=
  c = '\x00' || c = '\t' || c = '\n' || c = '\r' || c = ' ' || c = '#' ||
  c = '/' || c = ':' || c = '<' || c = '>' || c = '?' || c = '@' || c = '[' ||
  c = '\\' || c = ']' || c = '^' || c = '|' || c = '%'

/-- Characters after the last `@` of an authority (the host-and-port part). -/
def afterUserinfo (cs : List Char) : List Char :=
  (cs.reverse.takeWhile (fun c => c ≠ '@')).reverse

/-- A parsed (non-opaque) URL record: scheme, credentials, host, optional
port, path segments, optional query and fragment. -/
structure URLParts where
  scheme : String
  user : String
  pass : String
  host : String
  port : Option Nat
  path : List String
  query : Option String
  frag : Option String
deriving Repr, DecidableEq

/-- Parse the credentials, host and port of an authority.  The host is
lowercased and checked against the forbidden host code points; an empty host
fails for non-file schemes; a port must be numeric and below `2^16`, and a
scheme's default port is dropped.  A file host takes no port and maps
`localhost` to the empty host. -/
def parseHostPort (sch : String) (auth : List Char) :
    Option (String × String × String × Option Nat) :=
  let hp := afterUserinfo auth
  let ui := if auth.contains '@' then
      ((auth.reverse.dropWhile (fun c => c ≠ '@')).reverse).dropLast else []
  let user := String.mk (ui.takeWhile (fun c => c ≠ ':'))
  let pass := if ui.contains ':' then
      String.mk ((ui.dropWhile (fun c => c ≠ ':')).drop 1) else ""
  let hostChars := hp.takeWhile (fun c => c ≠ ':')
  if hostChars.any isForbiddenHostChar then none
  else
    let hostL := lowerStr (String.mk hostChars)
    let host := if sch = "file" && hostL = "localhost" then "" else hostL
    if hostChars = [] && sch ≠ "file" then none
    else if hp.length = hostChars.length then some (user, pass, host, none)
    else if sch = "file" then none
    else
      let portChars := hp.drop (hostChars.length + 1)
      if portChars = [] then some (user, pass, host, none)
      else if portChars.all Char.isDigit then
        let n := portChars.foldl (fun a c => a * 10 + (c.toNat - 48)) 0
        if 65536 ≤ n then none
        else if isDefaultPort sch n then some (user, pass, host, none)
        else some (user, pass, host, some n)
      else none

/-- Split characters into `/`- (or `\`-) separated segments; splitting the empty
string yields `[""]`, matching the URL path state reaching end-of-input. -/
def splitSlashAux (cur : List Char) : List Char → List String
  | [] => [String.mk cur.reverse]
  | c :: rest =>
    if c = '/' || c = '\\' then String.mk cur.reverse :: splitSlashAux [] rest
    else splitSlashAux (c :: cur) rest

/-- Path segments of the part of a URL after the authority: strip the single
leading slash, then split on slashes. -/
def pathSegments (cs : List Char) : List String :=
  let cs' := match cs with
    | c :: rest => if c = '/' || c = '\\' then rest else cs
    | [] => []
  splitSlashAux [] cs'

/-- A single-dot path segment (`.` or a percent-encoding of it). -/
def isSingleDot (s : String) : Bool := s = "." || lowerStr s = "%2e"

/-- A double-dot path segment (`..` or a percent-encoded variant). -/
def isDoubleDot (s : String) : Bool :=
  s = ".." || lowerStr s = ".%2e" || lowerStr s = "%2e." || lowerStr s = "%2e%2e"

/-- The WHATWG path state over a list of segments: `..` pops the path, `.` is
skipped, and a trailing dot segment leaves a trailing empty segment.  `acc`
holds the path built so far, in reverse. -/
def normSegsAux (acc : List String) : List String → List String
  | [] => acc.reverse
  | s :: rest =>
    if isDoubleDot s then
      if rest = [] then ("" :: acc.drop 1).reverse else normSegsAux (acc.drop 1) rest
    else if isSingleDot s then
      if rest = [] then ("" :: acc).reverse else normSegsAux acc rest
    else normSegsAux (s :: acc) rest

/-- Dot-normalize a list of path segments. -/
def normSegs (segs : List String) : List String := normSegsAux [] segs

/-- Serialize a parsed URL back to a string (the `href` getter), credentials
included. -/
def serializeURL (u : URLParts) : String :=
  u.scheme ++ "://" ++
    (if u.user ≠ "" || u.pass ≠ "" then
      u.user ++ (if u.pass ≠ "" then ":" ++ u.pass else "") ++ "@"
    else "") ++
    u.host ++
    (match u.port with | none => "" | some n => ":" ++ toString n) ++
    String.join (u.path.map (fun seg => "/" ++ seg)) ++
    (match u.query with | none => "" | some q => "?" ++ q) ++
    (match u.frag with | none => "" | some f => "#" ++ f)

/-- Split a URL remainder into the part before any query or fragment, the
query, and the fragment (authorities cannot contain `?` or `#`, so this may be
done up front). -/
def splitAfterAuthority (cs : List Char) : List Char × Option String × Option String :=
  let beforeHash := cs.takeWhile (fun c => c ≠ '#')
  let frag := if beforeHash.length = cs.length then none
              else some (String.mk (cs.drop (beforeHash.length + 1)))
  let beforeQ := beforeHash.takeWhile (fun c => c ≠ '?')
  let query := if beforeQ.length = beforeHash.length then none
               else some (String.mk (beforeHash.drop (beforeQ.length + 1)))
  (beforeQ, query, frag)

/-- A Windows drive letter (`c:` or `c|`), which a file URL's authority
position turns into a path segment. -/
def isDriveLetter (cs : List Char) : Bool :=
  match cs with
  | [a, b] => a.isAlpha && (b = ':' || b = '|')
  | _ => false

/-- Parse the remainder of a `file:` URL after its scheme.  Exactly two
leading slashes introduce a file host (no userinfo, no port, `localhost`
becomes empty, a drive letter is a path segment); otherwise the host is empty
and the remainder is the path. -/
def parseFileAfterScheme (rest : List Char) : Option URLParts :=
  let (beforeQ, query, frag) := splitAfterAuthority rest
  let n := (beforeQ.takeWhile isSlashChar).length
  if 2 ≤ n then
    let rest2 := beforeQ.drop 2
    let auth := rest2.takeWhile (fun c => !isSlashChar c)
    let afterAuth := rest2.drop auth.length
    if auth.contains '@' then none
    else if isDriveLetter auth then
      some { scheme := "file", user := "", pass := "", host := "", port := none,
             path := normSegs (splitSlashAux [] rest2), query := query, frag := frag }
    else
      match parseHostPort "file" auth with
      | none => none
      | some (_, _, host, _) =>
        some { scheme := "file", user := "", pass := "", host := host, port := none,
               path := normSegs (pathSegments afterAuth), query := query, frag := frag }
  else
    some { scheme := "file", user := "", pass := "", host := "", port := none,
           path := normSegs (pathSegments beforeQ), query := query, frag := frag }

/-- Parse an absolute special-scheme URL string (after input cleansing);
`none` models a thrown `TypeError` (no scheme, non-special scheme, empty or
invalid host, bad port).  Any number of leading slashes after the scheme of a
non-file special URL is tolerated, as in the special-authority states. -/
def parseAbs (s : String) : Option URLParts :=
  match splitScheme (cleanseUrlInput s).toList with
  | none => none
  | some (sch, rest) =>
    if !isSpecialScheme sch then none
    else if sch = "file" then parseFileAfterScheme rest
    else
      let (beforeQ, query, frag) := splitAfterAuthority rest
      let rest1 := beforeQ.dropWhile isSlashChar
      let auth := rest1.takeWhile (fun c => !isSlashChar c)
      let afterAuth := rest1.drop auth.length
      match parseHostPort sch auth with
      | none => none
      | some (user, pass, host, port) =>
        some { scheme := sch, user := user, pass := pass, host := host, port := port,
               path := normSegs (pathSegments afterAuth), query := query, frag := frag }

/-- Resolve a scheme-less (or same-scheme) remainder against a parsed special
base, following the WHATWG relative states: empty input copies the base
without its fragment; `#...` replaces the fragment; `?...` replaces the query;
two or more leading (back)slashes introduce an authority; one leading slash
replaces the path; anything else merges with the base path.  A file base uses
the file states (exactly two slashes for a host, never a port). -/
def resolveRel (b : URLParts) (href : String) : Option String :=
  let cs := href.toList
  match cs with
  | [] => some (serializeURL { b with frag := none })
  | '#' :: rest => some (serializeURL { b with frag := some (String.mk rest) })
  | _ =>
    let (beforeQ, query, frag) := splitAfterAuthority cs
    if beforeQ = [] then
      some (serializeURL { b with query := query, frag := frag })
    else
      let n := (beforeQ.takeWhile isSlashChar).length
      if b.scheme = "file" then
        if 2 ≤ n then
          let rest2 := beforeQ.drop 2
          let auth := rest2.takeWhile (fun c => !isSlashChar c)
          let afterAuth := rest2.drop auth.length
          if auth.contains '@' then none
          else if isDriveLetter auth then
            some (serializeURL { scheme := "file", user := "", pass := "",
                                 host := "", port := none,
                                 path := normSegs (splitSlashAux [] rest2),
                                 query := query, frag := frag })
          else
            match parseHostPort "file" auth with
            | none => none
            | some (_, _, host, _) =>
              some (serializeURL { scheme := "file", user := "", pass := "",
                                   host := host, port := none,
                                   path := normSegs (pathSegments afterAuth),
                                   query := query, frag := frag })
        else if n = 1 then
          some (serializeURL { b with path := normSegs (pathSegments beforeQ),
                                      query := query, frag := frag })
        else
          some (serializeURL { b with
                               path := normSegsAux b.path.dropLast.reverse
                                 (splitSlashAux [] beforeQ),
                               query := query, frag := frag })
      else
        if 2 ≤ n then
          let rest2 := beforeQ.dropWhile isSlashChar
          let auth := rest2.takeWhile (fun c => !isSlashChar c)
          let afterAuth := rest2.drop auth.length
          match parseHostPort b.scheme auth with
          | none => none
          | some (user, pass, host, port) =>
            some (serializeURL { scheme := b.scheme, user := user, pass := pass,
                                 host := host, port := port,
                                 path := normSegs (pathSegments afterAuth),
                                 query := query, frag := frag })
        else if n = 1 then
          some (serializeURL { b with path := normSegs (pathSegments beforeQ),
                                      query := query, frag := frag })
        else
          some (serializeURL { b with
                               path := normSegsAux b.path.dropLast.reverse
                                 (splitSlashAux [] beforeQ),
                               query := query, frag := frag })

/-- A parsed base: a special-scheme URL record, or an opaque-path URL
(any other scheme) kept as scheme and remainder. -/
inductive BaseURL where
  | special (u : URLParts)
  | opaqueBase (sch : String) (rest : String)
deriving Repr, DecidableEq

/-- Parse a base URL string: special schemes parse fully (failure throws),
any other scheme is a valid opaque-path base. -/
def parseBase (s : String) : Option BaseURL :=
  match splitScheme (cleanseUrlInput s).toList with
  | none => none
  | some (sch, rest) =>
    if isSpecialScheme sch then (parseAbs s).map BaseURL.special
    else some (.opaqueBase sch (String.mk rest))

/-- Model of the environment facility `new URL(href, base).href`: `some s` is
a successful construction serializing to `s`, `none` a thrown `TypeError`.
The constructor parses the base first, so an invalid base throws for every
href.  A special-scheme href with the base's scheme and fewer than two leading
slashes is resolved relatively (the same-scheme quirk); other special-scheme
hrefs parse absolutely; a non-special-scheme href is opaque and kept as
scheme plus remainder; a scheme-less href resolves against a special base, and
against an opaque-path base only as a pure fragment. -/
def newURL (href base : String) : Option String :=
  match parseBase base with
  | none => none
  | some pb =>
    let hrefC := cleanseUrlInput href
    match splitScheme hrefC.toList with
    | some (sch, rest) =>
      if isSpecialScheme sch then
        match pb with
        | .special b =>
          if sch = b.scheme && (rest.takeWhile isSlashChar).length < 2 then
            resolveRel b (String.mk rest)
          else (parseAbs hrefC).map serializeURL
        | .opaqueBase _ _ => (parseAbs hrefC).map serializeURL
      else some (sch ++ ":" ++ String.mk rest)
    | none =>
      match pb with
      | .special b => resolveRel b hrefC
      | .opaqueBase bsch brest =>
        match hrefC.toList with
        | '#' :: f =>
          some (bsch ++ ":" ++ String.mk (brest.toList.takeWhile (fun c => c ≠ '#')) ++
                "#" ++ String.mk f)
        | _ => none

/-- An absolute http(s) href: an http or https scheme followed by at least
two slashes, so the WHATWG parser enters its authority states regardless of
the base (in particular the same-scheme relative quirk does not apply). -/
def isAbsoluteHttpHref (s : String) : Bool :=
  match splitScheme (cleanseUrlInput s).toList with
  | some (sch, rest) =>
    (sch = "http" || sch = "https") && 2 ≤ (rest.takeWhile isSlashChar).length
  | none => false

/-! ## Link extraction (src/src/index.tsx `extractLinks`, and variants) -/

/-- One anchor's contribution in `extractLinks` (src/src/index.tsx lines 52-60):
`const href = a.getAttribute('href'); if (!href) return null;
try { return new URL(href, baseUrl).href } catch { return href }`.
A missing attribute is `none`; an empty string is falsy in JS, hence also `null`. -/
def resolveAnchor (baseUrl : String) : Option String → Option String
  | none => none
  | some href =>
    if href = "" then none
    else some ((newURL href baseUrl).getD href)

/-- Duplicate removal as performed by `Array.from(new Set(links))`: a JS `Set`
iterates in insertion order and skips keys already present, so the first
occurrence of each string is kept.  `seen` is the set built so far. -/
def dedupeAux (seen : List String) : List String → List String
  | [] => []
  | x :: xs => if x ∈ seen then dedupeAux seen xs else x :: dedupeAux (x :: seen) xs

/-- `Array.from(new Set(links))` on an empty initial set. -/
def dedupeKeepFirst (l : List String) : List String := dedupeAux [] l

/-- `extractLinks` of src/src/index.tsx (lines 48-63): map each anchor through
href lookup and URL resolution, filter out `null`, remove duplicates.
The anchors are the `DOMParser`/`getElementsByTagName('a')` output in document
order, each as its `href` attribute. -/
def extractLinks (anchors : List (Option String)) (baseUrl : String) : List String :=
  dedupeKeepFirst ((anchors.map (resolveAnchor baseUrl)).reduceOption)

/-- `extractLinks` of src/unnamed/part_002 (lines 41-55): same pipeline without
the deduplication step. -/
def extractLinksNoDedupe (anchors : List (Option String)) (baseUrl : String) : List String :=
  (anchors.map (resolveAnchor baseUrl)).reduceOption

/-- JS `String.prototype.startsWith`: prefix test on the character sequence
(model of the primitive, stated on character lists so it evaluates). -/
def jsStartsWith (s pre : String) : Bool := pre.toList.isPrefixOf s.toList

/-- The `a.href` IDL getter used by the simple variant: a missing `href`
attribute reflects as the empty string; a present one is resolved by the
browser against the document base, modelled by the parameter `resolveIDL`. -/
def hrefIDL (resolveIDL : String → String) : Option String → String
  | none => ""
  | some h => resolveIDL h

/-- `extractLinks` of src/scraper.tsx (lines 8-15) and src/unnamed/part_001
(lines 11-18): `.map(a => a.href).filter(href => href.startsWith('http'))`. -/
def extractLinksSimple (resolveIDL : String → String)
    (anchors : List (Option String)) : List String :=
  (anchors.map (hrefIDL resolveIDL)).filter (fun s => jsStartsWith s "http")

/-! ## Base-URL detection (src/src/index.tsx `extractTopBaseUrls`) -/

/-- The character class `\s` of the JS regular-expression engine. -/
def isJsSpace (c : Char) : Bool :=
  c = ' ' || c = '\t' || c = '\n' || c = '\r' || c = '\x0b' || c = '\x0c' ||
  c = '\u00A0' || c = '\u1680' || ('\u2000' ≤ c && c ≤ '\u200A') ||
  c = '\u2028' || c = '\u2029' || c = '\u202F' || c = '\u205F' ||
  c = '\u3000' || c = '\uFEFF'

/-- JS line terminators, which the regex metacharacter `.` does not match. -/
def isJsLineTerm (c : Char) : Bool :=
  c = '\n' || c = '\r' || c = '\u2028' || c = '\u2029'

/-- Case-insensitively consume the (lowercase) pattern from the front of `cs`. -/
def dropCI : List Char → List Char → Option (List Char)
  | [], cs => some cs
  | _ :: _, [] => none
  | p :: ps, c :: cs => if c.toLower = p then dropCI ps cs else none

/-- Length matched by the regex tail `:\/\/[^\s/$.?#].[^\s]*` at the front of
`cs`, or `none` when it does not match there. -/
def urlBodyLen (cs : List Char) : Option Nat :=
  match cs with
  | ':' :: '/' :: '/' :: c1 :: c2 :: rest =>
    if isJsSpace c1 || c1 = '/' || c1 = '$' || c1 = '.' || c1 = '?' || c1 = '#' then none
    else if isJsLineTerm c2 then none
    else some (5 + (rest.takeWhile (fun c => !isJsSpace c)).length)
  | _ => none

/-- Length matched at the front of `cs` by the URL regex of
src/src/index.tsx line 21, `/(https?:\/\/[^\s/$.?#].[^\s]*)/gi`, including the
backtracking of the optional `s`. -/
def urlMatchLen (cs : List Char) : Option Nat :=
  match dropCI ['h', 't', 't', 'p'] cs with
  | none => none
  | some csAfter =>
    match csAfter with
    | [] => none
    | c :: rest =>
      if c.toLower = 's' then
        match urlBodyLen rest with
        | some n => some (5 + n)
        | none =>
          match urlBodyLen csAfter with
          | some n => some (4 + n)
          | none => none
      else
        match urlBodyLen csAfter with
        | some n => some (4 + n)
        | none => none

/-- Global regex scan (`html.match(urlRegex) || []`): repeatedly take the
leftmost match and continue after it.  The fuel argument bounds the recursion
by the input length; every step consumes at least one character. -/
def scanUrlsAux : Nat → List Char → List String
  | 0, _ => []
  | _, [] => []
  | fuel + 1, c :: cs =>
    match urlMatchLen (c :: cs) with
    | some n => String.mk ((c :: cs).take n) :: scanUrlsAux fuel ((c :: cs).drop n)
    | none => scanUrlsAux fuel cs

/-- All matches of the URL regex in the input HTML, in order. -/
def scanUrls (html : String) : List String :=
  scanUrlsAux html.toList.length html.toList

/-- One match's reduction to its base URL (src/src/index.tsx lines 25-32):
`` `${parsedUrl.protocol}//${parsedUrl.hostname}` `` for a parseable URL,
`null` otherwise.  `protocol` includes the trailing colon. -/
def toBaseUrl (url : String) : Option String :=
  match parseAbs url with
  | some u => some (u.scheme ++ "://" ++ u.host)
  | none => none

/-- The occurrence-count record built by `baseUrls.reduce(...)` (lines 35-38):
a string-keyed object preserves insertion order of its keys, so it is an
association list where an existing key is bumped in place and a new key is
appended. -/
def bumpCount (counts : List (String × Nat)) (url : String) : List (String × Nat) :=
  match counts with
  | [] => [(url, 1)]
  | (k, v) :: rest =>
    if k = url then (k, v + 1) :: rest else (k, v) :: bumpCount rest url

/-- Count base-URL occurrences in order (`Object.entries` of the record). -/
def countUrls (urls : List String) : List (String × Nat) :=
  urls.foldl bumpCount []

/-- Stable insertion into a count-descending list: the new entry goes after all
entries with a count at least as large, matching the stable
`.sort((a, b) => b[1] - a[1])`. -/
def insertDescByCount (x : String × Nat) : List (String × Nat) → List (String × Nat)
  | [] => [x]
  | y :: ys => if y.2 < x.2 then x :: y :: ys else y :: insertDescByCount x ys

/-- `maxTopUrls` of src/src/index.tsx line 17. -/
def maxTopUrls : Nat := 10

/-- The count list sorted descending by count (stable). -/
def sortedBaseUrlCounts (html : String) : List (String × Nat) :=
  (countUrls (((scanUrls html).map toBaseUrl).reduceOption)).foldl
    (fun acc x => insertDescByCount x acc) []

/-- `extractTopBaseUrls` of src/src/index.tsx (lines 20-45): regex scan, reduce
to `scheme://hostname`, count, sort descending by count, take the top 10. -/
def extractTopBaseUrls (html : String) : List String :=
  ((sortedBaseUrlCounts html).take maxTopUrls).map Prod.fst

/-! ## Component state and handlers (src/src/index.tsx) -/

/-- The `HTMLLinkScraper` component's state variables (src/src/index.tsx
lines 8-14) that the claims concern. -/
structure ScraperState where
  html : String
  baseUrl : String
  links : List String
  message : String
  isCopied : Bool
  isSorted : Bool
deriving Repr, DecidableEq

/-- The status message computed by the link-extraction effect
(src/src/index.tsx lines 76-80). -/
def linkMessage (html : String) (extracted : List String) : String :=
  if extracted.length = 0 then
    if html.trim ≠ "" then "No links were found in the provided HTML." else ""
  else
    toString extracted.length ++ " unique link" ++
      (if extracted.length = 1 then "" else "s") ++ " extracted."

/-- The `useEffect` of src/src/index.tsx lines 72-84, run after `html` or
`baseUrl` changes: guarded by the JS truthiness test `if (html && baseUrl)`
(an empty string is falsy), it recomputes the links and message and clears the
copied and sorted flags; otherwise it leaves the state untouched.  `parse` is
the `DOMParser` collaborator producing the anchors' `href` attributes. -/
def linksEffect (parse : String → List (Option String)) (s : ScraperState) : ScraperState :=
  if s.html ≠ "" ∧ s.baseUrl ≠ "" then
    let extracted := extractLinks (parse s.html) s.baseUrl
    { s with links := extracted,
             message := linkMessage s.html extracted,
             isCopied := false,
             isSorted := false }
  else s

/-- `handleCopyLinks` (src/src/index.tsx lines 104-120).  `writeOk` is whether
the clipboard collaborator's `writeText` promise resolves; the second component
of the result is the payload handed to `writeText` (`none` when no write is
attempted).  The handler itself always returns (the rejection is caught). -/
def handleCopyLinks (writeOk : Bool) (s : ScraperState) : ScraperState × Option String :=
  if s.links = [] then
    ({ s with message := "No links to copy." }, none)
  else
    let linkText := String.intercalate "\n" s.links
    if writeOk then
      ({ s with message := "Links copied to clipboard!", isCopied := true }, some linkText)
    else
      ({ s with message := "Failed to copy links. Please try again or copy manually." },
        some linkText)

/-- Stable insertion for ascending comparator sort: the element is placed
before the first entry it compares strictly less than, hence after all entries
comparing equal to it. -/
def insertSorted (cmp : String → String → Ordering) (x : String) :
    List String → List String
  | [] => [x]
  | y :: ys => if cmp x y = .lt then x :: y :: ys else y :: insertSorted cmp x ys

/-- `[...links].sort((a, b) => a.localeCompare(b))` (src/src/index.tsx
line 124): a stable ascending sort by the comparator `cmp`, which models the
locale-aware `localeCompare` collaborator. -/
def sortLinks (cmp : String → String → Ordering) (l : List String) : List String :=
  l.foldl (fun acc x => insertSorted cmp x acc) []

/-- `handleSortLinks` (src/src/index.tsx lines 123-127). -/
def handleSortLinks (cmp : String → String → Ordering) (s : ScraperState) : ScraperState :=
  { s with links := sortLinks cmp s.links, isSorted := true }

/-! ## Properties of the deduplication step -/

theorem mem_dedupeAux {a : String} : ∀ {seen l : List String},
    a ∈ dedupeAux seen l ↔ a ∈ l ∧ a ∉ seen
  | _, [] => by simp [dedupeAux]
  | seen, x :: xs => by
    rw [dedupeAux]
    by_cases hx : x ∈ seen
    · rw [if_pos hx, mem_dedupeAux]
      constructor
      · rintro ⟨h1, h2⟩
        exact ⟨List.mem_cons_of_mem _ h1, h2⟩
      · rintro ⟨h1, h2⟩
        rcases List.mem_cons.1 h1 with rfl | h1
        · exact absurd hx h2
        · exact ⟨h1, h2⟩
    · rw [if_neg hx]
      constructor
      · intro h
        rcases List.mem_cons.1 h with rfl | h
        · exact ⟨List.mem_cons_self _ _, hx⟩
        · rcases mem_dedupeAux.1 h with ⟨h1, h2⟩
          exact ⟨List.mem_cons_of_mem _ h1, fun hs => h2 (List.mem_cons_of_mem _ hs)⟩
      · rintro ⟨h1, h2⟩
        rcases List.mem_cons.1 h1 with rfl | h1
        · exact List.mem_cons_self _ _
        · by_cases hax : a = x
          · subst hax
            exact List.mem_cons_self _ _
          · refine List.mem_cons_of_mem _ (mem_dedupeAux.2 ⟨h1, fun hs => ?_⟩)
            rcases List.mem_cons.1 hs with h | h
            · exact hax h
            · exact h2 h

theorem mem_dedupeKeepFirst {a : String} {l : List String} :
    a ∈ dedupeKeepFirst l ↔ a ∈ l := by
  rw [dedupeKeepFirst, mem_dedupeAux]
  simp

theorem nodup_dedupeAux : ∀ (seen l : List String), (dedupeAux seen l).Nodup
  | _, [] => by simp [dedupeAux]
  | seen, x :: xs => by
    rw [dedupeAux]
    by_cases hx : x ∈ seen
    · rw [if_pos hx]
      exact nodup_dedupeAux seen xs
    · rw [if_neg hx]
      refine List.nodup_cons.2 ⟨?_, nodup_dedupeAux (x :: seen) xs⟩
      intro hmem
      exact (mem_dedupeAux.1 hmem).2 (List.mem_cons_self _ _)

theorem nodup_dedupeKeepFirst (l : List String) : (dedupeKeepFirst l).Nodup :=
  nodup_dedupeAux [] l

theorem count_dedupeKeepFirst {a : String} {l : List String} (h : a ∈ l) :
    (dedupeKeepFirst l).count a = 1 :=
  List.count_eq_one_of_mem (nodup_dedupeKeepFirst l) (mem_dedupeKeepFirst.2 h)

/-- The deduplicated output carries its elements in order of their first
occurrence in the original list. -/
theorem pairwise_indexOf_dedupeAux : ∀ (seen l : List String),
    (dedupeAux seen l).Pairwise (fun a b => l.indexOf a < l.indexOf b)
  | _, [] => by simp [dedupeAux]
  | seen, x :: xs => by
    rw [dedupeAux]
    by_cases hx : x ∈ seen
    · rw [if_pos hx]
      refine (pairwise_indexOf_dedupeAux seen xs).imp_of_mem ?_
      intro a b ha hb hlt
      have hax : a ≠ x := fun h => (mem_dedupeAux.1 ha).2 (by rw [h]; exact hx)
      have hbx : b ≠ x := fun h => (mem_dedupeAux.1 hb).2 (by rw [h]; exact hx)
      rw [List.indexOf_cons_ne _ (by simpa using (Ne.symm hax)),
          List.indexOf_cons_ne _ (by simpa using (Ne.symm hbx))]
      exact Nat.succ_lt_succ hlt
    · rw [if_neg hx]
      refine List.pairwise_cons.2 ⟨?_, ?_⟩
      · intro b hb
        have hbx : b ≠ x := fun h =>
          (mem_dedupeAux.1 hb).2 (by rw [h]; exact List.mem_cons_self _ _)
        rw [List.indexOf_cons_self, List.indexOf_cons_ne _ (by simpa using (Ne.symm hbx))]
        exact Nat.succ_pos _
      · refine (pairwise_indexOf_dedupeAux (x :: seen) xs).imp_of_mem ?_
        intro a b ha hb hlt
        have hax : a ≠ x := fun h =>
          (mem_dedupeAux.1 ha).2 (by rw [h]; exact List.mem_cons_self _ _)
        have hbx : b ≠ x := fun h =>
          (mem_dedupeAux.1 hb).2 (by rw [h]; exact List.mem_cons_self _ _)
        rw [List.indexOf_cons_ne _ (by simpa using (Ne.symm hax)),
            List.indexOf_cons_ne _ (by simpa using (Ne.symm hbx))]
        exact Nat.succ_lt_succ hlt

theorem pairwise_indexOf_dedupeKeepFirst (l : List String) :
    (dedupeKeepFirst l).Pairwise (fun a b => l.indexOf a < l.indexOf b) :=
  pairwise_indexOf_dedupeAux [] l

/-- **C4.** In the deduplicating variant (src/src/index.tsx lines 61-63), every
URL string that at least one anchor resolves to — in particular one that two
anchors resolve to — appears exactly once in the output; uniqueness is by exact
string equality, and the output lists the distinct strings in order of their
first occurrence in the pre-deduplication resolved sequence. -/
theorem extractLinks_dedupes (anchors : List (Option String)) (baseUrl : String)
    (u : String) (hu : u ∈ extractLinksNoDedupe anchors baseUrl) :
    (extractLinks anchors baseUrl).count u = 1 ∧
    (extractLinks anchors baseUrl).Pairwise
      (fun a b => (extractLinksNoDedupe anchors baseUrl).indexOf a <
                  (extractLinksNoDedupe anchors baseUrl).indexOf b) := by
  constructor
  · exact count_dedupeKeepFirst hu
  · exact pairwise_indexOf_dedupeKeepFirst _

/-- Witness for C4 at a concrete input: two anchors resolving to the same URL
yield a single entry, in first-occurrence order. -/
theorem extractLinks_dedupes_witness :
    "http://a.com/" ∈ extractLinksNoDedupe
        [some "http://a.com", some "http://b.net/x", some "http://a.com"] "https://c.org/" ∧
    (extractLinks [some "http://a.com", some "http://b.net/x", some "http://a.com"]
        "https://c.org/").count "http://a.com/" = 1 :=
  ⟨by decide,
   (extractLinks_dedupes
      [some "http://a.com", some "http://b.net/x", some "http://a.com"] "https://c.org/"
      "http://a.com/" (by decide)).1⟩

/-! ## Membership in the extraction output (claims C1, C2, C3) -/

/-- Any URL string an anchor resolves to is in the extraction output. -/
theorem mem_extractLinks_of_resolveAnchor {anchors : List (Option String)}
    {baseUrl h u : String} (hmem : some h ∈ anchors)
    (hres : resolveAnchor baseUrl (some h) = some u) :
    u ∈ extractLinks anchors baseUrl := by
  rw [extractLinks, mem_dedupeKeepFirst, List.reduceOption_mem_iff]
  rw [← hres]
  exact List.mem_map_of_mem (resolveAnchor baseUrl) hmem

/-- **C1 (counterexample).** The claim "for an anchor whose href is already an
absolute URL the output contains that href unchanged, character for character"
fails: `new URL` normalizes, so the anchor `<a href="http://a.com">` yields
`"http://a.com/"` (trailing slash added), and the exact input string
`"http://a.com"` is not in the output. -/
theorem extractLinks_absolute_not_verbatim :
    jsStartsWith "http://a.com" "http" = true ∧
    extractLinks [some "http://a.com"] "https://b.org/" = ["http://a.com/"] ∧
    "http://a.com" ∉ extractLinks [some "http://a.com"] "https://b.org/" := by
  refine ⟨by decide, by decide, by decide⟩

/-- **C1 (amended).** For an anchor whose href is an absolute http(s) URL
(scheme followed by at least two slashes, so the same-scheme relative quirk
does not apply), the output contains the string the URL constructor yields
for it: its WHATWG-normalized serialization when construction succeeds —
equal to the href itself exactly when the href is already in canonical
serialized form — and the raw href when the constructor throws (the base,
parsed first, may be malformed). -/
theorem extractLinks_absolute_href (anchors : List (Option String))
    (baseUrl h : String) (hmem : some h ∈ anchors)
    (habs : isAbsoluteHttpHref h = true) :
    (∀ u, newURL h baseUrl = some u → u ∈ extractLinks anchors baseUrl) ∧
    (newURL h baseUrl = none → h ∈ extractLinks anchors baseUrl) ∧
    (newURL h baseUrl = some h → h ∈ extractLinks anchors baseUrl) := by
  have hne : h ≠ "" := by
    intro hempty
    rw [hempty] at habs
    exact absurd habs (by decide)
  refine ⟨?_, ?_, ?_⟩
  · intro u hres
    refine mem_extractLinks_of_resolveAnchor hmem ?_
    rw [resolveAnchor, if_neg hne, hres]
    rfl
  · intro hres
    refine mem_extractLinks_of_resolveAnchor hmem ?_
    rw [resolveAnchor, if_neg hne, hres]
    rfl
  · intro hres
    refine mem_extractLinks_of_resolveAnchor hmem ?_
    rw [resolveAnchor, if_neg hne, hres]
    rfl

/-- Witness for C1 (amended): an href already in canonical form passes through
unchanged. -/
theorem extractLinks_absolute_href_witness :
    "http://a.com/x" ∈ extractLinks [some "http://a.com/x"] "https://b.org/" :=
  (extractLinks_absolute_href [some "http://a.com/x"] "https://b.org/" "http://a.com/x"
    (List.mem_singleton.2 rfl) (by decide)).2.2 (by decide)

/-- **C2.** For an anchor with a relative href (no scheme of its own, after
input cleansing) and a base URL that parses as a special-scheme URL, the
output contains the standard relative resolution of the href against the
base, as computed by the WHATWG resolver model `newURL` (authority handling
included: credentials kept, backslash pairs open an authority). -/
theorem extractLinks_resolves_relative (anchors : List (Option String))
    (baseUrl h u : String) (hmem : some h ∈ anchors) (hne : h ≠ "")
    (_hrel : splitScheme (cleanseUrlInput h).toList = none)
    (_hbase : (parseAbs baseUrl).isSome = true)
    (hres : newURL h baseUrl = some u) :
    u ∈ extractLinks anchors baseUrl := by
  refine mem_extractLinks_of_resolveAnchor hmem ?_
  rw [resolveAnchor, if_neg hne, hres]
  rfl

/-- Witness for C2: `<a href="x/y">` against base `http://a.com/b/c` yields
the standard resolution `http://a.com/b/x/y`, and a protocol-relative href
with credentials keeps them in the authority. -/
theorem extractLinks_resolves_relative_witness :
    newURL "x/y" "http://a.com/b/c" = some "http://a.com/b/x/y" ∧
    newURL "//user@h.com/x" "http://a.com/" = some "http://user@h.com/x" ∧
    "http://a.com/b/x/y" ∈ extractLinks [some "x/y"] "http://a.com/b/c" ∧
    "http://user@h.com/x" ∈ extractLinks [some "//user@h.com/x"] "http://a.com/" := by
  refine ⟨by decide, by decide, ?_, ?_⟩
  · exact extractLinks_resolves_relative [some "x/y"] "http://a.com/b/c" "x/y"
      "http://a.com/b/x/y" (List.mem_singleton.2 rfl) (by decide) (by decide)
      (by decide) (by decide)
  · exact extractLinks_resolves_relative [some "//user@h.com/x"] "http://a.com/"
      "//user@h.com/x" "http://user@h.com/x" (List.mem_singleton.2 rfl) (by decide)
      (by decide) (by decide) (by decide)

/-- **C3.** When the URL constructor throws for an anchor's href (`newURL`
returns `none`: an invalid base — which is parsed first, so it throws for
every href —, a bad authority, an oversized port, ...), the extraction does
not propagate the failure: the `catch` yields the raw href, which therefore
appears in the output, and every other anchor's resolved value still appears
— the extraction as a whole completes (it is a total function). -/
theorem extractLinks_fallback_on_failure (anchors : List (Option String))
    (baseUrl h : String) (hmem : some h ∈ anchors) (hne : h ≠ "")
    (hfail : newURL h baseUrl = none) :
    h ∈ extractLinks anchors baseUrl ∧
    ∀ h' u, some h' ∈ anchors → resolveAnchor baseUrl (some h') = some u →
      u ∈ extractLinks anchors baseUrl := by
  constructor
  · refine mem_extractLinks_of_resolveAnchor hmem ?_
    rw [resolveAnchor, if_neg hne, hfail]
    rfl
  · intro h' u hmem' hres'
    exact mem_extractLinks_of_resolveAnchor hmem' hres'

/-- Witness for C3: the component's initial base URL `https://` is malformed
(empty host), as is a base with a port at `2^16` or above, so resolution of
`"x"` throws and the raw href `"x"` is emitted; the anchors around the
failing one are still processed. -/
theorem extractLinks_fallback_on_failure_witness :
    newURL "x" "https://" = none ∧
    newURL "x" "http://h.com:99999/" = none ∧
    "x" ∈ extractLinks [some "x", some "http://a.com/"] "https://" ∧
    "http://a.com/" ∈ extractLinks [some "x", some "http://a.com/"] "https://" := by
  refine ⟨by decide, by decide, ?_, ?_⟩
  · exact (extractLinks_fallback_on_failure [some "x", some "http://a.com/"] "https://"
      "x" (by decide) (by decide) (by decide)).1
  · exact (extractLinks_fallback_on_failure [some "x", some "http://a.com/"] "https://"
      "x" (by decide) (by decide) (by decide)).2 "http://a.com/" "http://a.com/"
      (by decide) (by decide)


/-! ## The recomputation effect (claim C6) -/

/-- A state exhibiting staleness: the textarea was just cleared (`html = ""`)
while previously computed links and a set sorted flag are still present. -/
def staleState : ScraperState :=
  { html := "", baseUrl := "https://b.org/", links := ["http://stale.example/"],
    message := "1 unique link extracted.", isCopied := false, isSorted := true }

/-- A parser stub returning no anchors (as `DOMParser` does on any document
without anchor elements, in particular the empty document). -/
def noAnchors : String → List (Option String) := fun _ => []

/-- **C6 (counterexample).** The claim "whenever the input HTML or base URL
changes, the link list and status are recomputed and the sorted flag resets,
for every value of the new inputs including empty HTML" fails: the effect body
is guarded by `if (html && baseUrl)`, so after clearing the HTML the old links
persist and the sorted flag stays set. -/
theorem linksEffect_stale_on_empty_html :
    staleState.html = "" ∧
    linksEffect noAnchors staleState = staleState ∧
    (linksEffect noAnchors staleState).isSorted = true ∧
    (linksEffect noAnchors staleState).links ≠
      extractLinks (noAnchors staleState.html) staleState.baseUrl := by
  exact ⟨rfl, by decide, by decide, by decide⟩

/-- **C6 (amended).** When the inputs change and both the new HTML and the new
base URL are non-empty, the effect recomputes the link list and status message
synchronously from the new inputs and resets the copied and sorted flags
(leaving the inputs themselves untouched); when either input is empty, the
effect body is skipped and the previous state persists unchanged. -/
theorem linksEffect_recomputes (parse : String → List (Option String)) (s : ScraperState) :
    (s.html ≠ "" → s.baseUrl ≠ "" →
      (linksEffect parse s).links = extractLinks (parse s.html) s.baseUrl ∧
      (linksEffect parse s).message =
        linkMessage s.html (extractLinks (parse s.html) s.baseUrl) ∧
      (linksEffect parse s).isSorted = false ∧
      (linksEffect parse s).isCopied = false ∧
      (linksEffect parse s).html = s.html ∧
      (linksEffect parse s).baseUrl = s.baseUrl) ∧
    ((s.html = "" ∨ s.baseUrl = "") → linksEffect parse s = s) := by
  constructor
  · intro h1 h2
    rw [linksEffect, if_pos ⟨h1, h2⟩]
    exact ⟨rfl, rfl, rfl, rfl, rfl, rfl⟩
  · intro h
    rw [linksEffect, if_neg (fun hc => h.elim hc.1 hc.2)]

/-- Witness for C6 (amended) at concrete non-empty inputs. -/
theorem linksEffect_recomputes_witness :
    (linksEffect (fun _ => [some "/z"])
        ⟨"<a href=/z></a>", "http://a.com/b", ["old"], "m", true, true⟩).links =
      extractLinks [some "/z"] "http://a.com/b" ∧
    (linksEffect (fun _ => [some "/z"])
        ⟨"<a href=/z></a>", "http://a.com/b", ["old"], "m", true, true⟩).isSorted = false :=
  ⟨((linksEffect_recomputes (fun _ => [some "/z"])
      ⟨"<a href=/z></a>", "http://a.com/b", ["old"], "m", true, true⟩).1
      (by decide) (by decide)).1,
   ((linksEffect_recomputes (fun _ => [some "/z"])
      ⟨"<a href=/z></a>", "http://a.com/b", ["old"], "m", true, true⟩).1
      (by decide) (by decide)).2.2.1⟩

/-! ## Sorting (claim C7) -/

theorem mem_insertSorted {cmp : String → String → Ordering} {x a : String} :
    ∀ {p : List String}, a ∈ insertSorted cmp x p ↔ a = x ∨ a ∈ p
  | [] => by simp [insertSorted]
  | y :: ys => by
    by_cases h : cmp x y = .lt
    · rw [insertSorted, if_pos h]
      simp
    · rw [insertSorted, if_neg h, List.mem_cons, mem_insertSorted, List.mem_cons]
      tauto

/-- An element comparing not-less-than everything in the list is inserted at
the end (this is where stability of the sort matters). -/
theorem insertSorted_append (cmp : String → String → Ordering) (x : String) :
    ∀ {p : List String}, (∀ y ∈ p, cmp x y ≠ .lt) → insertSorted cmp x p = p ++ [x]
  | [], _ => rfl
  | y :: ys, h => by
    rw [insertSorted, if_neg (h y (List.mem_cons_self _ _)),
        insertSorted_append cmp x (fun z hz => h z (List.mem_cons_of_mem _ hz))]
    rfl

/-- Inserting into a sorted list keeps it sorted, given a consistent comparator. -/
theorem pairwise_insertSorted (cmp : String → String → Ordering)
    (H2 : ∀ a b, cmp a b = .gt → cmp b a = .lt)
    (H3 : ∀ a b c, cmp a b = .lt → cmp b c ≠ .gt → cmp a c ≠ .gt) (x : String) :
    ∀ {p : List String}, p.Pairwise (fun a b => cmp a b ≠ .gt) →
      (insertSorted cmp x p).Pairwise (fun a b => cmp a b ≠ .gt)
  | [], _ => by simp [insertSorted]
  | y :: ys, hp => by
    rcases List.pairwise_cons.1 hp with ⟨hy, hys⟩
    by_cases h : cmp x y = .lt
    · rw [insertSorted, if_pos h]
      refine List.pairwise_cons.2 ⟨?_, hp⟩
      intro z hz
      rcases List.mem_cons.1 hz with rfl | hz
      · simp [h]
      · exact H3 x y z h (hy z hz)
    · rw [insertSorted, if_neg h]
      refine List.pairwise_cons.2 ⟨?_, pairwise_insertSorted cmp H2 H3 x hys⟩
      intro z hz
      rcases mem_insertSorted.1 hz with rfl | hz
      · exact fun hgt => h (H2 y z hgt)
      · exact hy z hz

/-- The sort's output is sorted with respect to the comparator. -/
theorem pairwise_sortLinks (cmp : String → String → Ordering)
    (H2 : ∀ a b, cmp a b = .gt → cmp b a = .lt)
    (H3 : ∀ a b c, cmp a b = .lt → cmp b c ≠ .gt → cmp a c ≠ .gt) (l : List String) :
    (sortLinks cmp l).Pairwise (fun a b => cmp a b ≠ .gt) := by
  rw [sortLinks]
  suffices h : ∀ (l acc : List String), acc.Pairwise (fun a b => cmp a b ≠ .gt) →
      (l.foldl (fun acc x => insertSorted cmp x acc) acc).Pairwise
        (fun a b => cmp a b ≠ .gt) from h l [] (by simp)
  intro l
  induction l with
  | nil => intro acc h; simpa using h
  | cons x xs ih =>
    intro acc h
    rw [List.foldl_cons]
    exact ih _ (pairwise_insertSorted cmp H2 H3 x h)

/-- A stable sort leaves an already-sorted list unchanged. -/
theorem sortLinks_of_sorted (cmp : String → String → Ordering)
    (H1 : ∀ a b, cmp a b = .lt → cmp b a = .gt) (l : List String)
    (hs : l.Pairwise (fun a b => cmp a b ≠ .gt)) : sortLinks cmp l = l := by
  rw [sortLinks]
  suffices h : ∀ (l acc : List String),
      (∀ x ∈ l, ∀ y ∈ acc, cmp x y ≠ .lt) →
      l.Pairwise (fun a b => cmp a b ≠ .gt) →
      l.foldl (fun acc x => insertSorted cmp x acc) acc = acc ++ l by
    simpa using h l [] (by simp) hs
  intro l
  induction l with
  | nil => intro acc _ _; simp
  | cons x xs ih =>
    intro acc hcross hsort
    rcases List.pairwise_cons.1 hsort with ⟨hx, hxs⟩
    rw [List.foldl_cons,
        insertSorted_append cmp x (fun y hy => hcross x (List.mem_cons_self _ _) y hy),
        ih (acc ++ [x]) ?_ hxs]
    · simp
    · intro z hz y hy
      rcases List.mem_append.1 hy with hy | hy
      · exact hcross z (List.mem_cons_of_mem _ hz) y hy
      · rcases List.mem_singleton.1 hy with rfl
        exact fun hlt => (hx z hz) (H1 z y hlt)

/-- **C7.** The sort operation of `handleSortLinks` (a stable ascending sort by
the locale-aware comparator) is idempotent: sorting an already-sorted list —
in particular the output of a previous sort — produces the same list, for any
consistent comparator (one whose `lt`/`gt` verdicts flip under argument swap
and that is transitive in the sense of `H3`). -/
theorem sortLinks_idempotent (cmp : String → String → Ordering)
    (H1 : ∀ a b, cmp a b = .lt → cmp b a = .gt)
    (H2 : ∀ a b, cmp a b = .gt → cmp b a = .lt)
    (H3 : ∀ a b c, cmp a b = .lt → cmp b c ≠ .gt → cmp a c ≠ .gt)
    (l : List String) :
    sortLinks cmp (sortLinks cmp l) = sortLinks cmp l :=
  sortLinks_of_sorted cmp H1 (sortLinks cmp l) (pairwise_sortLinks cmp H2 H3 l)

/-- Witness for C7 at a concrete comparator (the everything-equal collation,
trivially consistent) and a concrete list. -/
theorem sortLinks_idempotent_witness :
    sortLinks (fun _ _ => Ordering.eq) (sortLinks (fun _ _ => Ordering.eq) ["b", "a"]) =
      sortLinks (fun _ _ => Ordering.eq) ["b", "a"] :=
  sortLinks_idempotent (fun _ _ => Ordering.eq)
    (fun _ _ h => nomatch h)
    (fun _ _ h => nomatch h)
    (fun _ _ _ h _ => nomatch h)
    ["b", "a"]

/-! ## Clipboard export (claims C8, C9) -/

/-- **C8.** For a non-empty link list the copy handler hands the clipboard
exactly the links joined with newline separators, in the current list order;
for an empty list it attempts no write and sets the message
"No links to copy." instead. -/
theorem handleCopyLinks_payload (writeOk : Bool) (s : ScraperState) :
    (s.links ≠ [] →
      (handleCopyLinks writeOk s).2 = some (String.intercalate "\n" s.links)) ∧
    (s.links = [] →
      (handleCopyLinks writeOk s).2 = none ∧
      (handleCopyLinks writeOk s).1.message = "No links to copy.") := by
  constructor
  · intro h
    rw [handleCopyLinks, if_neg h]
    cases writeOk <;> rfl
  · intro h
    rw [handleCopyLinks, if_pos h]
    exact ⟨rfl, rfl⟩

/-- Witness for C8 at concrete states. -/
theorem handleCopyLinks_payload_witness :
    (handleCopyLinks true ⟨"", "", ["u", "v"], "", false, false⟩).2 =
      some (String.intercalate "\n" ["u", "v"]) ∧
    (handleCopyLinks true ⟨"", "", [], "", false, false⟩).2 = none ∧
    (handleCopyLinks true ⟨"", "", [], "", false, false⟩).1.message = "No links to copy." :=
  ⟨(handleCopyLinks_payload true ⟨"", "", ["u", "v"], "", false, false⟩).1 (by decide),
   (handleCopyLinks_payload true ⟨"", "", [], "", false, false⟩).2 rfl⟩

/-- **C9.** When the clipboard write is rejected, the handler catches the
failure (it is a total function returning normally), surfaces the failure
message, and leaves the link list — and the rest of the state except the
message — unchanged. -/
theorem handleCopyLinks_failure (s : ScraperState) :
    (handleCopyLinks false s).1.links = s.links ∧
    (handleCopyLinks false s).1.html = s.html ∧
    (handleCopyLinks false s).1.baseUrl = s.baseUrl ∧
    (handleCopyLinks false s).1.isCopied = s.isCopied ∧
    (handleCopyLinks false s).1.isSorted = s.isSorted ∧
    (s.links ≠ [] → (handleCopyLinks false s).1.message =
      "Failed to copy links. Please try again or copy manually.") := by
  by_cases h : s.links = []
  · rw [handleCopyLinks, if_pos h]
    exact ⟨rfl, rfl, rfl, rfl, rfl, fun hne => absurd h hne⟩
  · rw [handleCopyLinks, if_neg h]
    exact ⟨rfl, rfl, rfl, rfl, rfl, fun _ => rfl⟩

/-- Witness for C9 at a concrete state with links present. -/
theorem handleCopyLinks_failure_witness :
    (handleCopyLinks false ⟨"h", "b", ["u"], "m", false, true⟩).1.links = ["u"] ∧
    (handleCopyLinks false ⟨"h", "b", ["u"], "m", false, true⟩).1.message =
      "Failed to copy links. Please try again or copy manually." :=
  ⟨(handleCopyLinks_failure ⟨"h", "b", ["u"], "m", false, true⟩).1,
   (handleCopyLinks_failure ⟨"h", "b", ["u"], "m", false, true⟩).2.2.2.2.2 (by decide)⟩

/-! ## The simple variant's output invariant (claim C10) -/

/-- **C10.** In the simple variant (src/scraper.tsx, src/unnamed/part_001),
every output string starts with "http"; an anchor with a missing `href`
(whose IDL getter reflects the empty string) contributes no entry, and neither
does an anchor whose browser-resolved href does not start with "http"
(e.g. `mailto:` or `javascript:` links). -/
theorem extractLinksSimple_all_http (resolveIDL : String → String)
    (anchors : List (Option String)) :
    (∀ u ∈ extractLinksSimple resolveIDL anchors, jsStartsWith u "http" = true) ∧
    extractLinksSimple resolveIDL (none :: anchors) = extractLinksSimple resolveIDL anchors ∧
    (∀ h, jsStartsWith (resolveIDL h) "http" = false →
      extractLinksSimple resolveIDL (some h :: anchors) =
        extractLinksSimple resolveIDL anchors) := by
  refine ⟨?_, ?_, ?_⟩
  · intro u hu
    exact (List.mem_filter.1 hu).2
  · rw [extractLinksSimple, extractLinksSimple, List.map_cons,
        List.filter_cons_of_neg (by simp [hrefIDL, jsStartsWith, List.isPrefixOf])]
  · intro h hh
    rw [extractLinksSimple, extractLinksSimple, List.map_cons,
        List.filter_cons_of_neg (by simp [hrefIDL, hh])]

/-- Witness for C10: a `mailto:` anchor contributes nothing. -/
theorem extractLinksSimple_all_http_witness :
    jsStartsWith (id "mailto:x") "http" = false ∧
    extractLinksSimple id [some "mailto:x"] = extractLinksSimple id [] :=
  ⟨by decide, (extractLinksSimple_all_http id []).2.2 "mailto:x" (by decide)⟩

/-! ## Base-URL detection (claim C5) -/

theorem mem_insertDescByCount {x a : String × Nat} :
    ∀ {p : List (String × Nat)}, a ∈ insertDescByCount x p ↔ a = x ∨ a ∈ p
  | [] => by simp [insertDescByCount]
  | y :: ys => by
    by_cases h : y.2 < x.2
    · rw [insertDescByCount, if_pos h]
      simp
    · rw [insertDescByCount, if_neg h, List.mem_cons, mem_insertDescByCount, List.mem_cons]
      tauto

/-- Stable descending insertion preserves the count-descending order. -/
theorem pairwise_insertDescByCount (x : String × Nat) :
    ∀ {p : List (String × Nat)}, p.Pairwise (fun a b => b.2 ≤ a.2) →
      (insertDescByCount x p).Pairwise (fun a b => b.2 ≤ a.2)
  | [], _ => by simp [insertDescByCount]
  | y :: ys, hp => by
    rcases List.pairwise_cons.1 hp with ⟨hy, hys⟩
    by_cases h : y.2 < x.2
    · rw [insertDescByCount, if_pos h]
      refine List.pairwise_cons.2 ⟨?_, hp⟩
      intro z hz
      rcases List.mem_cons.1 hz with rfl | hz
      · exact Nat.le_of_lt h
      · exact Nat.le_trans (hy z hz) (Nat.le_of_lt h)
    · rw [insertDescByCount, if_neg h]
      refine List.pairwise_cons.2 ⟨?_, pairwise_insertDescByCount x hys⟩
      intro z hz
      rcases mem_insertDescByCount.1 hz with rfl | hz
      · exact Nat.le_of_not_lt h
      · exact hy z hz

/-- The sorted count list is pairwise descending in its counts. -/
theorem pairwise_sortedBaseUrlCounts (html : String) :
    (sortedBaseUrlCounts html).Pairwise (fun a b => b.2 ≤ a.2) := by
  rw [sortedBaseUrlCounts]
  generalize countUrls (((scanUrls html).map toBaseUrl).reduceOption) = l
  suffices h : ∀ (l acc : List (String × Nat)), acc.Pairwise (fun a b => b.2 ≤ a.2) →
      (l.foldl (fun acc x => insertDescByCount x acc) acc).Pairwise
        (fun a b => b.2 ≤ a.2) from h l [] (by simp)
  intro l
  induction l with
  | nil => intro acc h; simpa using h
  | cons x xs ih =>
    intro acc h
    rw [List.foldl_cons]
    exact ih _ (pairwise_insertDescByCount x h)

theorem perm_insertDescByCount (x : String × Nat) :
    ∀ (p : List (String × Nat)), (insertDescByCount x p).Perm (x :: p)
  | [] => List.Perm.refl _
  | y :: ys => by
    by_cases h : y.2 < x.2
    · rw [insertDescByCount, if_pos h]
    · rw [insertDescByCount, if_neg h]
      exact ((perm_insertDescByCount x ys).cons y).trans (List.Perm.swap x y ys)

theorem perm_foldl_insertDesc :
    ∀ (l acc : List (String × Nat)),
      (l.foldl (fun acc x => insertDescByCount x acc) acc).Perm (acc ++ l)
  | [], acc => by simp
  | x :: xs, acc => by
    rw [List.foldl_cons]
    exact (perm_foldl_insertDesc xs _).trans
      (((perm_insertDescByCount x acc).append_right xs).trans List.perm_middle.symm)

/-- The sort is a permutation of the count record's entries. -/
theorem perm_sortedBaseUrlCounts (html : String) :
    (sortedBaseUrlCounts html).Perm
      (countUrls (((scanUrls html).map toBaseUrl).reduceOption)) := by
  rw [sortedBaseUrlCounts]
  simpa using perm_foldl_insertDesc
    (countUrls (((scanUrls html).map toBaseUrl).reduceOption)) []

/-- Bumping a key's count leaves the key sequence unchanged when the key is
present and appends it otherwise — object key-ordering semantics. -/
theorem map_fst_bumpCount (url : String) :
    ∀ counts : List (String × Nat),
      (bumpCount counts url).map Prod.fst =
        if url ∈ counts.map Prod.fst then counts.map Prod.fst
        else counts.map Prod.fst ++ [url]
  | [] => by simp [bumpCount]
  | (k, v) :: rest => by
    rw [bumpCount]
    by_cases hk : k = url
    · subst hk
      simp
    · rw [if_neg hk]
      simp only [List.map_cons]
      rw [map_fst_bumpCount url rest]
      by_cases hmem : url ∈ rest.map Prod.fst
      · rw [if_pos hmem, if_pos (List.mem_cons_of_mem _ hmem)]
      · rw [if_neg hmem, if_neg ?_]
        · simp
        · intro hc
          rcases List.mem_cons.1 hc with h | h
          · exact hk h.symm
          · exact hmem h

theorem nodup_map_fst_bumpCount (url : String) {counts : List (String × Nat)}
    (h : (counts.map Prod.fst).Nodup) : ((bumpCount counts url).map Prod.fst).Nodup := by
  rw [map_fst_bumpCount]
  by_cases hmem : url ∈ counts.map Prod.fst
  · rwa [if_pos hmem]
  · rw [if_neg hmem]
    refine List.Nodup.append h (List.nodup_singleton url) ?_
    intro a ha hb
    rcases List.mem_singleton.1 hb with rfl
    exact hmem ha

/-- The keys of the count record are distinct. -/
theorem nodup_map_fst_countUrls (urls : List String) :
    ((countUrls urls).map Prod.fst).Nodup := by
  rw [countUrls]
  suffices h : ∀ (urls : List String) (acc : List (String × Nat)),
      (acc.map Prod.fst).Nodup → ((urls.foldl bumpCount acc).map Prod.fst).Nodup from
    h urls [] (by simp)
  intro urls
  induction urls with
  | nil => intro acc h; simpa using h
  | cons u us ih =>
    intro acc h
    rw [List.foldl_cons]
    exact ih _ (nodup_map_fst_bumpCount u h)

/-- The HTML of the spec's worked example: three anchors on `http://a.com` and
two on `http://b.com`. -/
def exampleHtml : String :=
  "<a href=http://a.com/x>1</a> <a href=http://a.com/x>2</a> <a href=http://a.com/x>3</a> <a href=http://b.com/y>4</a> <a href=http://b.com/y>5</a>"

set_option maxRecDepth 8192 in
/-- **C5.** The top-N base-URL detector returns at most `maxTopUrls = 10`
distinct base URLs — the names of count-record entries sorted descending by
occurrence count of `scheme://hostname`; when the HTML contains no match of
the absolute-URL regex it returns the empty list; and on the spec's example
(three `http://a.com/x` anchors, two `http://b.com/y`) the first result is
`http://a.com`. -/
theorem extractTopBaseUrls_spec (html : String) :
    maxTopUrls = 10 ∧
    (extractTopBaseUrls html).length ≤ maxTopUrls ∧
    (extractTopBaseUrls html).Nodup ∧
    ((sortedBaseUrlCounts html).take maxTopUrls).Pairwise (fun a b => b.2 ≤ a.2) ∧
    extractTopBaseUrls html = ((sortedBaseUrlCounts html).take maxTopUrls).map Prod.fst ∧
    (scanUrls html = [] → extractTopBaseUrls html = []) ∧
    (extractTopBaseUrls exampleHtml).head? = some "http://a.com" := by
  refine ⟨rfl, ?_, ?_, ?_, rfl, ?_, by decide⟩
  · rw [extractTopBaseUrls, List.length_map]
    exact le_trans (List.length_take_le _ _) (le_refl _)
  · rw [extractTopBaseUrls, List.map_take]
    have hnodup := ((perm_sortedBaseUrlCounts html).map Prod.fst).nodup_iff.2
      (nodup_map_fst_countUrls _)
    exact hnodup.sublist (List.take_sublist _ _)
  · exact (pairwise_sortedBaseUrlCounts html).sublist (List.take_sublist _ _)
  · intro h
    simp [extractTopBaseUrls, sortedBaseUrlCounts, countUrls, h]

/-- Witness for C5: an HTML without any absolute URL yields the empty list. -/
theorem extractTopBaseUrls_spec_witness :
    scanUrls "no urls here" = [] ∧ extractTopBaseUrls "no urls here" = [] :=
  ⟨by decide, (extractTopBaseUrls_spec "no urls here").2.2.2.2.2.1 (by decide)⟩

end LinkScraper
